import Mathlib

/-!
Verification of the voiceflare voice-trigger pipeline.

The repository ships two kinds of material: a small native launcher
(`launcher.cpp`) whose behaviour is embedded here directly from its source,
and a documented Python pipeline (segmenter, trigger matcher, connection
supervisor, playback sequencer, response orchestrator) whose sources are not
part of the distribution; those components are modelled from the design
document and checked against its stated properties.
-/

namespace VoiceFlare

/-! ## Launcher (embedded from launcher.cpp) -/

/-- A character counts as a path separator for the launcher, matching the
C++ call std::string::find_last_of with the two-character set backslash
and forward slash. -/
def isPathSep (c : Char) : Bool := c == '\\' || c == '/'

/-- Index of the last path-separator character of the list, mirroring
find_last_of: some i with i the greatest separator position, none when the
list holds no separator. -/
def findLastSep : List Char → Option Nat
  | [] => none
  | c :: cs =>
    match findLastSep cs with
    | some i => some (i + 1)
    | none => if isPathSep c then some 0 else none

/-- The launcher's working-directory computation:
exeDir.substr(0, exeDir.find_last_of("\\/")). substr(0, npos) keeps the
whole string when no separator occurs. -/
def stripLastPathComponent (s : String) : String :=
  match findLastSep s.toList with
  | some i => String.mk (s.toList.take i)
  | none => s

/-- The fixed command string built by the launcher. -/
def launcherCommand : String := "python bot_full.py"

/-- Observable outcome of one run of the launcher's main: the working
directory passed to SetCurrentDirectoryA, the command passed to system(),
the value returned from main, and whether the error branch printed its
message and blocked on std::cin.get(). -/
structure LauncherResult where
  workingDir : String
  command : String
  exitCode : Int
  printedError : Bool
  waitedForEnter : Bool
deriving DecidableEq

/-- main from launcher.cpp, embedded over the executable path reported by
GetModuleFileNameA and the status returned by system(). -/
def launcherMain (exePath : String) (systemStatus : Int) : LauncherResult :=
  let exeDir := stripLastPathComponent exePath
  if systemStatus ≠ 0 then
    ⟨exeDir, launcherCommand, 1, true, true⟩
  else
    ⟨exeDir, launcherCommand, 0, false, false⟩

/-! ## Trigger Matcher (modelled from the spec) -/

/-- Modelled from the spec: word splitting used for whitespace collapsing.
Missing source: the Trigger Matcher of the Python pipeline is documented but
not shipped. Splits a character list into maximal whitespace-free words;
the accumulator holds the current word reversed. -/
def wordsAux : List Char → List Char → List (List Char)
  | [], acc => if acc.isEmpty then [] else [acc.reverse]
  | c :: cs, acc =>
    if c.isWhitespace then
      if acc.isEmpty then wordsAux cs [] else acc.reverse :: wordsAux cs []
    else wordsAux cs (c :: acc)

/-- Modelled from the spec: rejoin words with single spaces (whitespace
collapsing). -/
def joinWithSpace : List (List Char) → List Char
  | [] => []
  | [w] => w
  | w :: x :: ws => w ++ ' ' :: joinWithSpace (x :: ws)

/-- Modelled from the spec: transcript normalization — lowercase then
collapse whitespace runs to single spaces. -/
def normalizeChars (cs : List Char) : List Char :=
  joinWithSpace (wordsAux (cs.map Char.toLower) [])

/-- Modelled from the spec: substring containment of the needle in the
haystack, used for phrase scanning. -/
def occursIn (needle : List Char) : List Char → Bool
  | [] => needle.isEmpty
  | c :: t => needle.isPrefixOf (c :: t) || occursIn needle t

/-- Modelled from the spec: per-user configuration — the optional target
mapping and the optional friendly-fire group of the speaker. -/
structure UserConfig where
  targetName : Option String
  ffGroup : Option String
deriving DecidableEq

/-- Modelled from the spec: matcher configuration — the ordered trigger
phrase list, the friendly-fire groups (group name to suppressed phrase set)
and the speaker-to-user mapping. -/
structure MatcherConfig where
  keyphrases : List String
  ffGroups : List (String × List String)
  users : List (String × UserConfig)
deriving DecidableEq

/-- A zero-or-one trigger match outcome: matched phrase, speaker, resolved
target. -/
structure TriggerEvent where
  phrase : String
  speaker : String
  target : String
deriving DecidableEq

/-- Configuration entry of a speaker, when present. -/
def lookupUser (cfg : MatcherConfig) (speaker : String) : Option UserConfig :=
  (cfg.users.find? (fun u => u.1 == speaker)).map (fun u => u.2)

/-- Modelled from the spec: first phrase of the ordered list contained in
the normalized text. -/
def firstMatch (phrases : List String) (norm : List Char) : Option String :=
  phrases.find? (fun p => occursIn p.toList norm)

/-- Modelled from the spec: whether the speaker belongs to a friendly-fire
group whose suppression set includes the phrase. -/
def suppressedFor (cfg : MatcherConfig) (speaker phrase : String) : Bool :=
  match lookupUser cfg speaker with
  | none => false
  | some u =>
    match u.ffGroup with
    | none => false
    | some g =>
      match (cfg.ffGroups.find? (fun e => e.1 == g)).map (fun e => e.2) with
      | none => false
      | some ps => ps.contains phrase

/-- Target mapping of a speaker, when configured. -/
def targetFor (cfg : MatcherConfig) (speaker : String) : Option String :=
  (lookupUser cfg speaker).bind (fun u => u.targetName)

/-- Modelled from the spec: match(Transcript). Normalizes the text, scans
the ordered phrase list first-match-wins, discards the match when the
speaker's friendly-fire group suppresses the matched phrase or when the
speaker has no target mapping. -/
def matchTranscript (cfg : MatcherConfig) (speaker text : String) :
    Option TriggerEvent :=
  match firstMatch cfg.keyphrases (normalizeChars text.toList) with
  | none => none
  | some p =>
    if suppressedFor cfg speaker p then none
    else
      match targetFor cfg speaker with
      | none => none
      | some tgt => some ⟨p, speaker, tgt⟩

/-- Concrete matcher configuration used by the C3 counterexample: two
phrases in order, the speaker alice in group g which suppresses only the
second phrase. -/
def cfgC3 : MatcherConfig :=
  ⟨["hello bot", "hey assistant"], [("g", ["hey assistant"])],
   [("alice", ⟨some "bob", some "g"⟩)]⟩

/-- Concrete matcher configuration used by the C4 witness: same phrases, a
speaker with no target mapping. -/
def cfgC4 : MatcherConfig :=
  ⟨["hello bot", "hey assistant"], [], [("carol", ⟨none, none⟩)]⟩

/-! ## Connection Supervisor (modelled from the spec) -/

/-- Modelled from the spec: the connection states of the supervisor.
Missing source: the Connection Supervisor of the Python pipeline is
documented but not shipped. -/
inductive ConnState where
  | disconnected
  | connecting
  | connected
  | backingOff
  | exhausted
deriving DecidableEq

/-- Supervisor state: connection state plus the consecutive failed-attempt
counter. -/
structure SupState where
  conn : ConnState
  attempts : Nat
deriving DecidableEq

/-- External events driving the supervisor: cooldown elapsed (a reconnect
is attempted), the attempt failed, the attempt succeeded, and an unexpected
disconnect of an established connection. -/
inductive ConnEvent where
  | retry
  | fail
  | success
  | unexpectedDisconnect
deriving DecidableEq

/-- Modelled from the spec: one supervisor transition. exhausted is
terminal; a failed attempt increments the counter and exhausts the
supervisor once the configured maximum K is reached, backing off otherwise;
a successful attempt resets the counter to zero; an unexpected disconnect
of an established connection moves to backing off. -/
def supStep (K : Nat) (s : SupState) (e : ConnEvent) : SupState :=
  match s.conn, e with
  | ConnState.exhausted, _ => s
  | ConnState.disconnected, ConnEvent.retry => ⟨ConnState.connecting, s.attempts⟩
  | ConnState.backingOff, ConnEvent.retry => ⟨ConnState.connecting, s.attempts⟩
  | ConnState.connecting, ConnEvent.fail =>
    if K ≤ s.attempts + 1 then ⟨ConnState.exhausted, s.attempts + 1⟩
    else ⟨ConnState.backingOff, s.attempts + 1⟩
  | ConnState.connecting, ConnEvent.success => ⟨ConnState.connected, 0⟩
  | ConnState.connected, ConnEvent.unexpectedDisconnect =>
    ⟨ConnState.backingOff, s.attempts⟩
  | _, _ => s

/-- Iterated supervisor transitions over an event list. -/
def runSup (K : Nat) (s : SupState) : List ConnEvent → SupState
  | [] => s
  | e :: es => runSup K (supStep K s e) es

/-- k consecutive failed reconnect attempts: each failure is followed by a
cooldown expiry that would start the next attempt. -/
def consecFails : Nat → List ConnEvent
  | 0 => []
  | k + 1 => ConnEvent.fail :: ConnEvent.retry :: consecFails k

/-! ## Playback Sequencer (modelled from the spec) -/

/-- A synthesized playback job: the time it was enqueued and the length of
its audio payload. Missing source: the Playback Sequencer of the Python
pipeline is documented but not shipped. -/
structure PlaybackJob where
  enqueueTime : Nat
  duration : Nat
deriving DecidableEq

/-- Modelled from the spec: the single playback worker drains the queue in
FIFO order, streaming each job to completion before starting the next. The
result lists, per job, the interval during which its audio occupies the
outbound channel: a job starts at its enqueue time or at the completion of
its predecessor, whichever is later. -/
def schedulePlayback (now : Nat) : List PlaybackJob → List (Nat × Nat)
  | [] => []
  | j :: rest =>
    (max now j.enqueueTime, max now j.enqueueTime + j.duration) ::
      schedulePlayback (max now j.enqueueTime + j.duration) rest

/-! ## Response Orchestrator (modelled from the spec) -/

/-- Modelled from the spec: render the spoken response for a trigger via
the completion service. The service is an oracle from the attempt index to
its outcome (none is a timeout or error). The orchestrator calls once, on
failure retries once, and otherwise falls back to the static default
phrase, so a response text is always produced. Missing source: the
Response Orchestrator of the Python pipeline is documented but not
shipped. -/
def renderResponse (svc : Nat → Option String) (fallback : String) : String :=
  match svc 0 with
  | some t => t
  | none =>
    match svc 1 with
    | some t => t
    | none => fallback

/-- Completion-service oracle used by the C7 witness: the first call times
out, the retry succeeds. -/
def svcRetryOk : Nat → Option String :=
  fun n => if n = 0 then none else some "never gonna give you up"

/-! ## Per-Speaker Segmenter (modelled from the spec)

Frames arrive at a fixed cadence, so durations are counted in frames. A
frame is its speech classification: true for speech, false for non-speech.
Missing source: the Per-Speaker Segmenter of the Python pipeline is
documented but not shipped. -/

/-- Audio thresholds of the segmenter, in frames: minimum clip length,
silence-finalize duration, pre-roll window capacity, and the maximum sane
clip duration that forces early finalization. -/
structure SegConfig where
  minClipFrames : Nat
  silenceFinalizeFrames : Nat
  prerollMaxChunks : Nat
  maxClipFrames : Nat
deriving DecidableEq

/-- Per-speaker segmenter state: whether an utterance is being buffered,
the rolling pre-roll buffer (filled while idle), the accumulated clip, and
the silence timer. -/
structure SegState where
  buffering : Bool
  preroll : List Bool
  clip : List Bool
  silenceTimer : Nat
deriving DecidableEq

/-- Fresh idle segmenter state. -/
def initSegState : SegState := ⟨false, [], [], 0⟩

/-- Modelled from the spec: push one frame into the rolling pre-roll
buffer, keeping at most n most recent chunks. -/
def pushPreroll (n : Nat) (buf : List Bool) (f : Bool) : List Bool :=
  (buf ++ [f]).drop ((buf ++ [f]).length - n)

/-- Silence timer after one frame: a speech frame clears it, a non-speech
frame extends it. -/
def nextTimer (timer : Nat) (f : Bool) : Nat := if f then 0 else timer + 1

/-- Modelled from the spec: append one frame to the accumulating clip while
buffering. A speech frame clears the silence timer, a non-speech frame
extends it. When the timer reaches the silence-finalize duration or the
clip reaches the maximum sane duration, the clip is finalized: it is
emitted when its accumulated length meets the minimum clip length and
discarded as noise otherwise, and the state returns to idle. -/
def bufferAppend (cfg : SegConfig) (clip : List Bool) (timer : Nat) (f : Bool) :
    SegState × List (List Bool) :=
  if cfg.silenceFinalizeFrames ≤ nextTimer timer f ∨
      cfg.maxClipFrames ≤ (clip ++ [f]).length then
    (initSegState,
     if cfg.minClipFrames ≤ (clip ++ [f]).length then [clip ++ [f]] else [])
  else
    (⟨true, [], clip ++ [f], nextTimer timer f⟩, [])

/-- Modelled from the spec: one segmenter step. While buffering, the frame
is appended to the clip. While idle, a speech frame seeds the clip with the
pre-roll window and starts buffering, and a non-speech frame only rolls the
pre-roll buffer. -/
def segStep (cfg : SegConfig) (st : SegState) (f : Bool) :
    SegState × List (List Bool) :=
  if st.buffering then
    bufferAppend cfg st.clip st.silenceTimer f
  else if f then
    bufferAppend cfg st.preroll 0 f
  else
    (⟨false, pushPreroll cfg.prerollMaxChunks st.preroll f, [], 0⟩, [])

/-- Run the segmenter over a frame sequence, collecting every emitted
clip in order. -/
def runSeg (cfg : SegConfig) (st : SegState) : List Bool → SegState × List (List Bool)
  | [] => (st, [])
  | f :: fs =>
    ((runSeg cfg (segStep cfg st f).1 fs).1,
     (segStep cfg st f).2 ++ (runSeg cfg (segStep cfg st f).1 fs).2)

/-- Clips emitted for a frame sequence starting from the fresh state. -/
def segment (cfg : SegConfig) (frames : List Bool) : List (List Bool) :=
  (runSeg cfg initSegState frames).2

/-- Length of the longest run of consecutive speech frames: cur is the
current run, best the best run seen. -/
def maxRunAux : List Bool → Nat → Nat → Nat
  | [], cur, best => max cur best
  | f :: fs, cur, best =>
    if f then maxRunAux fs (cur + 1) best
    else maxRunAux fs 0 (max cur best)

/-- Longest speech run of a frame sequence. -/
def maxSpeechRun (frames : List Bool) : Nat := maxRunAux frames 0 0

/-- Pre-roll buffer after k idle non-speech frames. -/
def idleRoll (cfg : SegConfig) (buf : List Bool) : Nat → List Bool
  | 0 => buf
  | k + 1 => idleRoll cfg (pushPreroll cfg.prerollMaxChunks buf false) k

/-- Segmenter thresholds used by the C1 counterexample: minimum clip 3
frames, finalize after 2 silence frames, pre-roll of 2 chunks, generous
maximum duration. -/
def cfgC1 : SegConfig := ⟨3, 2, 2, 100⟩

/-- Segmenter thresholds used by the C2 counterexample: minimum clip 1
frame, finalize after 1 silence frame, no pre-roll, maximum sane duration
of 2 frames. -/
def cfgC2 : SegConfig := ⟨1, 1, 0, 2⟩

/-- Segmenter thresholds used by the C2 witness: minimum clip 2 frames,
finalize after 2 silence frames, pre-roll of 3 chunks, generous maximum
duration. -/
def cfgC2w : SegConfig := ⟨2, 2, 3, 100⟩

end VoiceFlare

namespace VoiceFlare

/-! ## Launcher theorems (C8, C9, C10) -/

theorem findLastSep_none (cs : List Char)
    (h : ∀ c ∈ cs, isPathSep c = false) : findLastSep cs = none := by
  induction cs with
  | nil => rfl
  | cons c t ih =>
    have ht : findLastSep t = none := ih (fun x hx => h x (List.mem_cons_of_mem c hx))
    have hc : isPathSep c = false := h c (List.mem_cons_self c t)
    simp [findLastSep, ht, hc]

theorem findLastSep_last (cs : List Char) (i : Nat) (hi : i < cs.length)
    (hsep : isPathSep cs[i] = true)
    (hlast : ∀ j, ∀ hj : j < cs.length, i < j → isPathSep cs[j] = false) :
    findLastSep cs = some i := by
  induction cs generalizing i with
  | nil => exact absurd hi (Nat.not_lt_zero i)
  | cons c t ih =>
    cases i with
    | zero =>
      have ht : findLastSep t = none := by
        apply findLastSep_none
        intro x hx
        obtain ⟨j, hj, hget⟩ := List.mem_iff_getElem.mp hx
        have := hlast (j + 1) (by simpa using Nat.succ_lt_succ hj) (Nat.succ_pos j)
        simpa [hget] using this
      simp only [List.getElem_cons_zero] at hsep
      simp [findLastSep, ht, hsep]
    | succ k =>
      have hk : k < t.length := Nat.lt_of_succ_lt_succ hi
      have hsep2 : isPathSep t[k] = true := by
        simpa using hsep
      have hlast2 : ∀ j, ∀ hj : j < t.length, k < j → isPathSep t[j] = false := by
        intro j hj hkj
        have := hlast (j + 1) (by simpa using Nat.succ_lt_succ hj) (Nat.succ_lt_succ hkj)
        simpa using this
      have ht : findLastSep t = some k := ih k hk hsep2 hlast2
      simp [findLastSep, ht]

/-- Claim C8: the launcher's main returns 1 after printing an error message
and waiting for an Enter keypress whenever the spawned command's exit status
is non-zero, and returns 0 (with no error output) when the status is zero. -/
theorem c8_exit_code (exePath : String) (status : Int) :
    (status ≠ 0 →
      (launcherMain exePath status).exitCode = 1 ∧
      (launcherMain exePath status).printedError = true ∧
      (launcherMain exePath status).waitedForEnter = true) ∧
    (status = 0 →
      (launcherMain exePath status).exitCode = 0 ∧
      (launcherMain exePath status).printedError = false ∧
      (launcherMain exePath status).waitedForEnter = false) := by
  by_cases h : status = 0 <;> simp [launcherMain, h]

/-- Witness for C8 at statuses 7 and 0. -/
theorem c8_exit_code_witness :
    ((7 : Int) ≠ 0 ∧ (launcherMain "C:\\bot\\run.exe" 7).exitCode = 1) ∧
    (launcherMain "C:\\bot\\run.exe" 0).exitCode = 0 :=
  ⟨⟨by decide, ((c8_exit_code "C:\\bot\\run.exe" 7).1 (by decide)).1⟩,
   ((c8_exit_code "C:\\bot\\run.exe" 0).2 rfl).1⟩

/-- Claim C9: on every execution the command string the launcher passes to
system() is exactly "python bot_full.py", independent of the executable path
and of the spawned command's status. -/
theorem c9_fixed_command (exePath : String) (status : Int) :
    (launcherMain exePath status).command = "python bot_full.py" := by
  unfold launcherMain
  split <;> rfl

/-- Claim C10: the launcher's working directory is the executable path
truncated immediately before its last backslash-or-slash separator, and the
untruncated path when no separator occurs. -/
theorem c10_working_dir (exePath : String) (status : Int) :
    (launcherMain exePath status).workingDir = stripLastPathComponent exePath ∧
    ((∀ c ∈ exePath.toList, isPathSep c = false) →
      stripLastPathComponent exePath = exePath) ∧
    (∀ i, ∀ hi : i < exePath.toList.length,
      isPathSep exePath.toList[i] = true →
      (∀ j, ∀ hj : j < exePath.toList.length, i < j →
        isPathSep exePath.toList[j] = false) →
      stripLastPathComponent exePath = String.mk (exePath.toList.take i)) := by
  refine ⟨?_, ?_, ?_⟩
  · unfold launcherMain
    split <;> rfl
  · intro h
    unfold stripLastPathComponent
    rw [findLastSep_none exePath.toList h]
  · intro i hi hsep hlast
    unfold stripLastPathComponent
    rw [findLastSep_last exePath.toList i hi hsep hlast]

/-- Witness for C10: the path C:\bot\run.exe is truncated before its last
separator (index 6), and a separator-free path is kept whole. -/
theorem c10_working_dir_witness :
    stripLastPathComponent "C:\\bot\\run.exe" =
      String.mk ("C:\\bot\\run.exe".toList.take 6) ∧
    stripLastPathComponent "runexe" = "runexe" :=
  ⟨(c10_working_dir "C:\\bot\\run.exe" 0).2.2 6 (by decide) (by decide) (by decide),
   (c10_working_dir "runexe" 0).2.1 (by decide)⟩

/-! ## Trigger Matcher theorems (C3, C4) -/

theorem findSomeSplit {α : Type} (p : α → Bool) (l : List α) (a : α)
    (h : l.find? p = some a) :
    p a = true ∧ ∃ pre post, l = pre ++ a :: post ∧ ∀ q ∈ pre, p q = false := by
  induction l with
  | nil => simp [List.find?] at h
  | cons x xs ih =>
    by_cases hx : p x = true
    · rw [List.find?_cons_of_pos xs hx] at h
      obtain rfl : x = a := Option.some.inj h
      exact ⟨hx, [], xs, rfl, by simp⟩
    · rw [List.find?_cons_of_neg xs hx] at h
      obtain ⟨hpa, pre, post, heq, hpre⟩ := ih h
      refine ⟨hpa, x :: pre, post, by simp [heq], ?_⟩
      intro q hq
      rcases List.mem_cons.mp hq with hq | hq
      · subst hq; exact Bool.eq_false_iff.mpr hx
      · exact hpre q hq

/-- Counterexample to claim C3: alice belongs to group g which suppresses
the phrase "hey assistant", the transcript contains that phrase, yet
match(Transcript) still emits a TriggerEvent for alice because the earlier
phrase "hello bot" matches first. -/
theorem c3_counterexample :
    suppressedFor cfgC3 "alice" "hey assistant" = true ∧
    occursIn "hey assistant".toList
      (normalizeChars "hello bot hey assistant".toList) = true ∧
    matchTranscript cfgC3 "alice" "hello bot hey assistant" =
      some ⟨"hello bot", "alice", "bob"⟩ := by
  refine ⟨by decide, by decide, by decide⟩

/-- Claim C3 amended: when the speaker's friendly-fire group suppresses
phrase P, no TriggerEvent referencing P is ever emitted for that speaker —
the suppressed match is discarded — though an event for a different,
non-suppressed phrase occurring in the same transcript may still fire. -/
theorem c3_suppression (cfg : MatcherConfig) (speaker text P : String)
    (ev : TriggerEvent)
    (hsup : suppressedFor cfg speaker P = true)
    (hm : matchTranscript cfg speaker text = some ev) : ev.phrase ≠ P := by
  unfold matchTranscript at hm
  cases hfm : firstMatch cfg.keyphrases (normalizeChars text.toList) with
  | none => rw [hfm] at hm; exact absurd hm (by simp)
  | some p =>
    rw [hfm] at hm
    dsimp only at hm
    by_cases hs : suppressedFor cfg speaker p = true
    · rw [if_pos hs] at hm; exact absurd hm (by simp)
    · rw [if_neg hs] at hm
      cases ht : targetFor cfg speaker with
      | none => rw [ht] at hm; exact absurd hm (by simp)
      | some tgt =>
        rw [ht] at hm
        obtain rfl : ev = ⟨p, speaker, tgt⟩ := (Option.some.inj hm).symm
        intro hcontra
        have hp : p = P := hcontra
        exact hs (hp ▸ hsup)

/-- Witness for the amended C3: in the counterexample configuration the
emitted event's phrase is not the suppressed phrase. -/
theorem c3_suppression_witness :
    suppressedFor cfgC3 "alice" "hey assistant" = true ∧
    (TriggerEvent.mk "hello bot" "alice" "bob").phrase ≠ "hey assistant" :=
  ⟨by decide,
   c3_suppression cfgC3 "alice" "hello bot hey assistant" "hey assistant"
     ⟨"hello bot", "alice", "bob"⟩ (by decide) (by decide)⟩

/-- Claim C4: match(Transcript) emits at most one TriggerEvent; an emitted
event references the first phrase of the configured ordered list contained
in the normalized text (every earlier phrase does not occur); and a speaker
with no configured target mapping yields no event. -/
theorem c4_first_match_wins (cfg : MatcherConfig) (speaker text : String) :
    (∀ ev1 ev2, matchTranscript cfg speaker text = some ev1 →
      matchTranscript cfg speaker text = some ev2 → ev1 = ev2) ∧
    (∀ ev, matchTranscript cfg speaker text = some ev →
      ev.speaker = speaker ∧
      occursIn ev.phrase.toList (normalizeChars text.toList) = true ∧
      ∃ pre post, cfg.keyphrases = pre ++ ev.phrase :: post ∧
        ∀ q ∈ pre, occursIn q.toList (normalizeChars text.toList) = false) ∧
    (targetFor cfg speaker = none → matchTranscript cfg speaker text = none) := by
  refine ⟨?_, ?_, ?_⟩
  · intro ev1 ev2 h1 h2
    rw [h1] at h2
    exact Option.some.inj h2
  · intro ev hm
    unfold matchTranscript at hm
    cases hfm : firstMatch cfg.keyphrases (normalizeChars text.toList) with
    | none => rw [hfm] at hm; exact absurd hm (by simp)
    | some p =>
      rw [hfm] at hm
      dsimp only at hm
      by_cases hs : suppressedFor cfg speaker p = true
      · rw [if_pos hs] at hm; exact absurd hm (by simp)
      · rw [if_neg hs] at hm
        cases ht : targetFor cfg speaker with
        | none => rw [ht] at hm; exact absurd hm (by simp)
        | some tgt =>
          rw [ht] at hm
          obtain rfl : ev = ⟨p, speaker, tgt⟩ := (Option.some.inj hm).symm
          obtain ⟨hocc, pre, post, heq, hpre⟩ :=
            findSomeSplit (fun q => occursIn q.toList (normalizeChars text.toList))
              cfg.keyphrases p (by simpa [firstMatch] using hfm)
          exact ⟨rfl, hocc, pre, post, heq, hpre⟩
  · intro ht
    unfold matchTranscript
    cases hfm : firstMatch cfg.keyphrases (normalizeChars text.toList) with
    | none => rfl
    | some p =>
      dsimp only
      by_cases hs : suppressedFor cfg speaker p = true
      · rw [if_pos hs]
      · rw [if_neg hs, ht]

/-- Witness for C4: a speaker with no target mapping yields no event even
though the transcript contains a configured phrase. -/
theorem c4_first_match_wins_witness :
    targetFor cfgC4 "carol" = none ∧
    occursIn "hello bot".toList (normalizeChars "hello bot".toList) = true ∧
    matchTranscript cfgC4 "carol" "hello bot" = none :=
  ⟨by decide, by decide,
   (c4_first_match_wins cfgC4 "carol" "hello bot").2.2 (by decide)⟩

/-! ## Connection Supervisor theorems (C5) -/

theorem supStep_exhausted (K : Nat) (s : SupState) (e : ConnEvent)
    (h : s.conn = ConnState.exhausted) : supStep K s e = s := by
  obtain ⟨c, a⟩ := s
  subst h
  cases e <;> rfl

theorem runSup_exhausted (K : Nat) (evs : List ConnEvent) :
    ∀ s : SupState, s.conn = ConnState.exhausted → runSup K s evs = s := by
  induction evs with
  | nil => intro s _; rfl
  | cons e es ih =>
    intro s h
    show runSup K (supStep K s e) es = s
    rw [supStep_exhausted K s e h]
    exact ih s h

theorem runSup_fails_exhaust (K : Nat) :
    ∀ k a, a + k = K → 0 < k →
      runSup K ⟨ConnState.connecting, a⟩ (consecFails k) =
        ⟨ConnState.exhausted, K⟩ := by
  intro k
  induction k with
  | zero => intro a _ h0; exact absurd h0 (by omega)
  | succ k ih =>
    intro a hsum _
    cases k with
    | zero =>
      have hK : K ≤ a + 1 := by omega
      have hEq : a + 1 = K := by omega
      simp [consecFails, runSup, supStep, hK, hEq]
    | succ m =>
      have hK : ¬K ≤ a + 1 := by omega
      have hstep : runSup K ⟨ConnState.connecting, a⟩ (consecFails (m + 1 + 1)) =
          runSup K ⟨ConnState.connecting, a + 1⟩ (consecFails (m + 1)) := by
        simp [consecFails, runSup, supStep, hK]
      rw [hstep]
      exact ih (a + 1) (by omega) (by omega)

theorem supStep_connected_resets (K : Nat) (s : SupState) (e : ConnEvent)
    (hne : s.conn ≠ ConnState.connected)
    (hc : (supStep K s e).conn = ConnState.connected) :
    (supStep K s e).attempts = 0 := by
  obtain ⟨c, a⟩ := s
  cases c <;> cases e <;> simp_all [supStep]
  split at hc <;> simp_all

/-- Claim C5: after K consecutive failed reconnect attempts (K the
configured maximum) the supervisor is exhausted with no further connecting
transition possible — exhausted is terminal under every event sequence —
and any single transition into connected resets the attempt counter to
zero. -/
theorem c5_supervisor (K : Nat) (hK : 0 < K) :
    runSup K ⟨ConnState.connecting, 0⟩ (consecFails K) =
      ⟨ConnState.exhausted, K⟩ ∧
    (∀ s evs, s.conn = ConnState.exhausted → runSup K s evs = s) ∧
    (∀ s evs, s.conn = ConnState.exhausted →
      (runSup K s evs).conn ≠ ConnState.connecting) ∧
    (∀ s e, s.conn ≠ ConnState.connected →
      (supStep K s e).conn = ConnState.connected →
      (supStep K s e).attempts = 0) := by
  refine ⟨runSup_fails_exhaust K K 0 (by omega) hK, ?_, ?_, ?_⟩
  · intro s evs h
    exact runSup_exhausted K evs s h
  · intro s evs h
    rw [runSup_exhausted K evs s h, h]
    intro hcontra
    exact ConnState.noConfusion hcontra
  · intro s e hne hc
    exact supStep_connected_resets K s e hne hc

/-- Witness for C5 at K = 2: two consecutive failures exhaust the
supervisor. -/
theorem c5_supervisor_witness :
    0 < 2 ∧
    runSup 2 ⟨ConnState.connecting, 0⟩ (consecFails 2) =
      ⟨ConnState.exhausted, 2⟩ :=
  ⟨by decide, (c5_supervisor 2 (by decide)).1⟩

/-! ## Playback Sequencer theorems (C6) -/

theorem schedulePlayback_mem_ge (jobs : List PlaybackJob) :
    ∀ now x, x ∈ schedulePlayback now jobs → now ≤ x.1 ∧ x.1 ≤ x.2 := by
  induction jobs with
  | nil => intro now x hx; simp [schedulePlayback] at hx
  | cons jb rest ih =>
    intro now x hx
    simp only [schedulePlayback, List.mem_cons] at hx
    rcases hx with h | h
    · subst h
      exact ⟨Nat.le_max_left _ _, Nat.le_add_right _ _⟩
    · have hx2 := ih (max now jb.enqueueTime + jb.duration) x h
      refine ⟨?_, hx2.2⟩
      calc now ≤ max now jb.enqueueTime := Nat.le_max_left _ _
        _ ≤ max now jb.enqueueTime + jb.duration := Nat.le_add_right _ _
        _ ≤ x.1 := hx2.1

theorem schedulePlayback_sep (jobs : List PlaybackJob) :
    ∀ now i j, i < j → j < (schedulePlayback now jobs).length →
      ((schedulePlayback now jobs).getD i (0, 0)).2 ≤
        ((schedulePlayback now jobs).getD j (0, 0)).1 := by
  induction jobs with
  | nil => intro now i j _ hj; simp [schedulePlayback] at hj
  | cons jb rest ih =>
    intro now i j hij hj
    cases i with
    | zero =>
      cases j with
      | zero => omega
      | succ j2 =>
        have hj2 : j2 <
            (schedulePlayback (max now jb.enqueueTime + jb.duration) rest).length := by
          simpa [schedulePlayback] using hj
        have hmem : (schedulePlayback (max now jb.enqueueTime + jb.duration)
              rest).getD j2 (0, 0) ∈
            schedulePlayback (max now jb.enqueueTime + jb.duration) rest := by
          rw [List.getD_eq_getElem _ _ hj2]
          exact List.getElem_mem hj2
        have hge := (schedulePlayback_mem_ge rest
          (max now jb.enqueueTime + jb.duration) _ hmem).1
        simpa [schedulePlayback] using hge
    | succ i2 =>
      cases j with
      | zero => omega
      | succ j2 =>
        have hj2 : j2 <
            (schedulePlayback (max now jb.enqueueTime + jb.duration) rest).length := by
          simpa [schedulePlayback] using hj
        have := ih (max now jb.enqueueTime + jb.duration) i2 j2 (by omega) hj2
        simpa [schedulePlayback] using this

/-- Claim C6: the playback schedule is strictly serialized: for any two
jobs at queue positions i before j, job j's audio starts no earlier than
job i's audio completes, and at no time are both jobs' playback intervals
simultaneously active on the outbound channel. -/
theorem c6_playback_serial (now : Nat) (jobs : List PlaybackJob) (i j : Nat)
    (hij : i < j) (hj : j < (schedulePlayback now jobs).length) :
    ((schedulePlayback now jobs).getD i (0, 0)).2 ≤
      ((schedulePlayback now jobs).getD j (0, 0)).1 ∧
    ∀ t : Nat,
      ¬(((schedulePlayback now jobs).getD i (0, 0)).1 ≤ t ∧
        t < ((schedulePlayback now jobs).getD i (0, 0)).2 ∧
        ((schedulePlayback now jobs).getD j (0, 0)).1 ≤ t ∧
        t < ((schedulePlayback now jobs).getD j (0, 0)).2) := by
  have hsep := schedulePlayback_sep jobs now i j hij hj
  refine ⟨hsep, ?_⟩
  intro t ht
  obtain ⟨h1, h2, h3, h4⟩ := ht
  omega

/-- Witness for C6: two overlappingly enqueued jobs are played back to
back, the second starting exactly when the first drains. -/
theorem c6_playback_serial_witness :
    (0 : Nat) < 1 ∧ 1 < (schedulePlayback 0 [⟨0, 5⟩, ⟨1, 3⟩]).length ∧
    ((schedulePlayback 0 [⟨0, 5⟩, ⟨1, 3⟩]).getD 0 (0, 0)).2 ≤
      ((schedulePlayback 0 [⟨0, 5⟩, ⟨1, 3⟩]).getD 1 (0, 0)).1 :=
  ⟨by decide, by decide,
   (c6_playback_serial 0 [⟨0, 5⟩, ⟨1, 3⟩] 0 1 (by decide) (by decide)).1⟩

/-! ## Response Orchestrator theorems (C7) -/

/-- Claim C7: the orchestrator always produces a spoken response text: a
successful first completion call is used as is, a failed first call is
retried once and a successful retry is used, and when both calls time out
or error the static default phrase is spoken — the response is service
output from within the retry budget or the fallback, never a failed
turn. -/
theorem c7_response_fallback (svc : Nat → Option String) (fb : String) :
    (∀ t, svc 0 = some t → renderResponse svc fb = t) ∧
    (∀ t, svc 0 = none → svc 1 = some t → renderResponse svc fb = t) ∧
    (svc 0 = none → svc 1 = none → renderResponse svc fb = fb) ∧
    ((∃ n, n ≤ 1 ∧ svc n = some (renderResponse svc fb)) ∨
      renderResponse svc fb = fb) := by
  refine ⟨?_, ?_, ?_, ?_⟩
  · intro t h
    simp [renderResponse, h]
  · intro t h0 h1
    simp [renderResponse, h0, h1]
  · intro h0 h1
    simp [renderResponse, h0, h1]
  · cases h0 : svc 0 with
    | some t => exact Or.inl ⟨0, by omega, by simp [renderResponse, h0]⟩
    | none =>
      cases h1 : svc 1 with
      | some t => exact Or.inl ⟨1, by omega, by simp [renderResponse, h0, h1]⟩
      | none => exact Or.inr (by simp [renderResponse, h0, h1])

/-- Witness for C7: the first call errors, the retry succeeds, and its text
is spoken. -/
theorem c7_response_fallback_witness :
    svcRetryOk 0 = none ∧
    renderResponse svcRetryOk "default phrase" = "never gonna give you up" :=
  ⟨rfl, (c7_response_fallback svcRetryOk "default phrase").2.1
    "never gonna give you up" rfl rfl⟩

/-! ## Per-Speaker Segmenter theorems (C1, C2) -/

theorem nextTimer_true (timer : Nat) : nextTimer timer true = 0 := rfl

theorem nextTimer_false (timer : Nat) : nextTimer timer false = timer + 1 := rfl

theorem runSeg_cons (cfg : SegConfig) (st : SegState) (f : Bool) (fs : List Bool) :
    runSeg cfg st (f :: fs) =
      ((runSeg cfg (segStep cfg st f).1 fs).1,
       (segStep cfg st f).2 ++ (runSeg cfg (segStep cfg st f).1 fs).2) := rfl

theorem bufferAppend_emit_min (cfg : SegConfig) (clip : List Bool) (timer : Nat)
    (f : Bool) (x : List Bool) (hx : x ∈ (bufferAppend cfg clip timer f).2) :
    cfg.minClipFrames ≤ x.length := by
  unfold bufferAppend at hx
  by_cases h1 : cfg.silenceFinalizeFrames ≤ nextTimer timer f ∨
      cfg.maxClipFrames ≤ (clip ++ [f]).length
  · rw [if_pos h1] at hx
    dsimp only at hx
    by_cases h2 : cfg.minClipFrames ≤ (clip ++ [f]).length
    · rw [if_pos h2] at hx
      rw [List.mem_singleton] at hx
      subst hx
      exact h2
    · rw [if_neg h2] at hx
      exact absurd hx (List.not_mem_nil x)
  · rw [if_neg h1] at hx
    exact absurd hx (List.not_mem_nil x)

theorem segStep_emit_min (cfg : SegConfig) (st : SegState) (f : Bool)
    (x : List Bool) (hx : x ∈ (segStep cfg st f).2) :
    cfg.minClipFrames ≤ x.length := by
  unfold segStep at hx
  split at hx
  · exact bufferAppend_emit_min cfg st.clip st.silenceTimer f x hx
  · split at hx
    · exact bufferAppend_emit_min cfg st.preroll 0 f x hx
    · exact absurd hx (List.not_mem_nil x)

theorem runSeg_emit_min (cfg : SegConfig) (frames : List Bool) :
    ∀ (st : SegState) (x : List Bool), x ∈ (runSeg cfg st frames).2 →
      cfg.minClipFrames ≤ x.length := by
  induction frames with
  | nil => intro st x hx; exact absurd hx (List.not_mem_nil x)
  | cons f fs ih =>
    intro st x hx
    rw [runSeg_cons] at hx
    dsimp only at hx
    rcases List.mem_append.mp hx with h | h
    · exact segStep_emit_min cfg st f x h
    · exact ih (segStep cfg st f).1 x h

/-- Counterexample to claim C1: with the thresholds cfgC1 (minimum clip 3
frames) a frame sequence whose longest speech run is a single frame still
makes the segmenter emit an AudioClip, because the pre-roll window and the
appended trailing silence pad the accumulated clip past the minimum
length. -/
theorem c1_counterexample :
    maxSpeechRun [false, false, true, false, false] < cfgC1.minClipFrames ∧
    segment cfgC1 [false, false, true, false, false] =
      [[false, false, true, false, false]] := by decide

/-- Claim C1 amended: on finalization a clip whose accumulated duration
(pre-roll plus speech plus appended trailing silence) is below the minimum
clip length is discarded rather than emitted, so every emitted AudioClip
has accumulated duration at least the minimum; but a speech run shorter
than the minimum clip duration can still yield an emitted AudioClip when
the pre-roll window and the trailing silence pad the accumulated duration
up to the minimum. -/
theorem c1_min_duration (cfg : SegConfig) (frames clip : List Bool)
    (hmem : clip ∈ segment cfg frames) : cfg.minClipFrames ≤ clip.length :=
  runSeg_emit_min cfg frames initSegState clip hmem

/-- Witness for the amended C1 at the counterexample input: the emitted
5-frame clip meets the 3-frame minimum. -/
theorem c1_min_duration_witness :
    [false, false, true, false, false] ∈
      segment cfgC1 [false, false, true, false, false] ∧
    cfgC1.minClipFrames ≤ ([false, false, true, false, false] : List Bool).length :=
  ⟨by decide,
   c1_min_duration cfgC1 [false, false, true, false, false]
     [false, false, true, false, false] (by decide)⟩

theorem runSeg_append (cfg : SegConfig) (xs ys : List Bool) :
    ∀ st : SegState, runSeg cfg st (xs ++ ys) =
      ((runSeg cfg (runSeg cfg st xs).1 ys).1,
       (runSeg cfg st xs).2 ++ (runSeg cfg (runSeg cfg st xs).1 ys).2) := by
  induction xs with
  | nil => intro st; rfl
  | cons f fs ih =>
    intro st
    rw [List.cons_append, runSeg_cons, ih (segStep cfg st f).1, runSeg_cons]
    dsimp only
    rw [List.append_assoc]

theorem runSeg_idle (cfg : SegConfig) (k : Nat) :
    ∀ buf : List Bool,
      runSeg cfg ⟨false, buf, [], 0⟩ (List.replicate k false) =
        (⟨false, idleRoll cfg buf k, [], 0⟩, []) := by
  induction k with
  | zero => intro buf; rfl
  | succ k ih =>
    intro buf
    rw [List.replicate_succ, runSeg_cons]
    have hstep : segStep cfg ⟨false, buf, [], 0⟩ false
        = (⟨false, pushPreroll cfg.prerollMaxChunks buf false, [], 0⟩, []) := rfl
    rw [hstep]
    dsimp only
    rw [ih (pushPreroll cfg.prerollMaxChunks buf false)]
    rfl

theorem idleRoll_replicate_gen (cfg : SegConfig) (p : Nat) :
    ∀ q, idleRoll cfg (List.replicate (min q cfg.prerollMaxChunks) false) p
      = List.replicate (min (q + p) cfg.prerollMaxChunks) false := by
  induction p with
  | zero => intro q; rfl
  | succ p ih =>
    intro q
    show idleRoll cfg (pushPreroll cfg.prerollMaxChunks
      (List.replicate (min q cfg.prerollMaxChunks) false) false) p
      = List.replicate (min (q + (p + 1)) cfg.prerollMaxChunks) false
    have hpush : pushPreroll cfg.prerollMaxChunks
        (List.replicate (min q cfg.prerollMaxChunks) false) false
        = List.replicate (min (q + 1) cfg.prerollMaxChunks) false := by
      unfold pushPreroll
      rw [← List.replicate_succ' (min q cfg.prerollMaxChunks) false,
        List.drop_replicate, List.length_replicate]
      congr 1
      omega
    rw [hpush, ih (q + 1)]
    congr 1
    omega

theorem idleRoll_nil (cfg : SegConfig) (p : Nat) :
    idleRoll cfg [] p = List.replicate (min p cfg.prerollMaxChunks) false := by
  have h := idleRoll_replicate_gen cfg p 0
  simpa using h

theorem runSeg_speech (cfg : SegConfig) (k : Nat) :
    ∀ c : List Bool, 0 < cfg.silenceFinalizeFrames →
      c.length + k < cfg.maxClipFrames →
      runSeg cfg ⟨true, [], c, 0⟩ (List.replicate k true) =
        (⟨true, [], c ++ List.replicate k true, 0⟩, []) := by
  induction k with
  | zero =>
    intro c _ _
    rw [List.replicate_zero, List.append_nil]
    rfl
  | succ k ih =>
    intro c hth hmax
    rw [List.replicate_succ, runSeg_cons]
    have hstep : segStep cfg ⟨true, [], c, 0⟩ true
        = (⟨true, [], c ++ [true], 0⟩, []) := by
      show bufferAppend cfg c 0 true = _
      unfold bufferAppend
      have hcond : ¬(cfg.silenceFinalizeFrames ≤ nextTimer 0 true ∨
          cfg.maxClipFrames ≤ (c ++ [true]).length) := by
        push_neg
        refine ⟨by rw [nextTimer_true]; omega, ?_⟩
        simp only [List.length_append, List.length_cons, List.length_nil]
        omega
      rw [if_neg hcond, nextTimer_true]
    rw [hstep]
    dsimp only
    rw [ih (c ++ [true]) hth
      (by simp only [List.length_append, List.length_cons, List.length_nil]; omega)]
    rw [List.append_assoc]
    rfl

theorem runSeg_silence (cfg : SegConfig) :
    ∀ (j k : Nat) (c : List Bool) (t : Nat),
      t + j = cfg.silenceFinalizeFrames → 0 < j → j ≤ k →
      c.length + j ≤ cfg.maxClipFrames →
      cfg.minClipFrames ≤ c.length + j →
      (runSeg cfg ⟨true, [], c, t⟩ (List.replicate k false)).2 =
        [c ++ List.replicate j false] := by
  intro j
  induction j with
  | zero => intro k c t _ h0; exact absurd h0 (by omega)
  | succ j ih =>
    intro k c t hsum _ hjk hmax hmin
    obtain ⟨k2, rfl⟩ : ∃ k2, k = k2 + 1 := ⟨k - 1, by omega⟩
    rw [List.replicate_succ, runSeg_cons]
    cases Nat.eq_zero_or_pos j with
    | inl hj0 =>
      subst hj0
      have hcond : cfg.silenceFinalizeFrames ≤ nextTimer t false ∨
          cfg.maxClipFrames ≤ (c ++ [false]).length := by
        left
        rw [nextTimer_false]
        omega
      have hemit : cfg.minClipFrames ≤ (c ++ [false]).length := by
        simp only [List.length_append, List.length_cons, List.length_nil]
        omega
      have hstep : segStep cfg ⟨true, [], c, t⟩ false
          = (initSegState, [c ++ [false]]) := by
        show bufferAppend cfg c t false = _
        unfold bufferAppend
        rw [if_pos hcond, if_pos hemit]
      rw [hstep]
      dsimp only
      rw [show initSegState = (⟨false, [], [], 0⟩ : SegState) from rfl,
        runSeg_idle cfg k2 []]
      rfl
    | inr hjpos =>
      have hcond : ¬(cfg.silenceFinalizeFrames ≤ nextTimer t false ∨
          cfg.maxClipFrames ≤ (c ++ [false]).length) := by
        push_neg
        constructor
        · rw [nextTimer_false]
          omega
        · simp only [List.length_append, List.length_cons, List.length_nil]
          omega
      have hstep : segStep cfg ⟨true, [], c, t⟩ false
          = (⟨true, [], c ++ [false], t + 1⟩, []) := by
        show bufferAppend cfg c t false = _
        unfold bufferAppend
        rw [if_neg hcond, nextTimer_false]
      rw [hstep]
      dsimp only
      rw [ih k2 (c ++ [false]) (t + 1) (by omega) hjpos (by omega)
        (by simp only [List.length_append, List.length_cons, List.length_nil]; omega)
        (by simp only [List.length_append, List.length_cons, List.length_nil]; omega)]
      simp [List.replicate_succ, List.append_assoc]

/-- Counterexample to claim C2: with the thresholds cfgC2 (minimum clip 1,
finalize after 1 silence frame, maximum sane duration 2 frames) a 3-frame
speech run meeting the minimum and followed by enough silence yields two
emitted AudioClips, not exactly one: the maximum-duration rule forces an
early finalization that splits the run. -/
theorem c2_counterexample :
    cfgC2.minClipFrames ≤ 3 ∧ cfgC2.silenceFinalizeFrames ≤ 1 ∧
    segment cfgC2 (List.replicate 3 true ++ List.replicate 1 false) =
      [[true, true], [true, false]] := by decide

/-- Claim C2 amended: for a positive finalize threshold, and provided the
pre-roll window plus the speech run plus the finalize silence stays within
the maximum sane clip duration (so no forced early finalization occurs),
a speech run of length at least the minimum clip duration followed by
silence of at least the finalize threshold yields exactly one emitted
AudioClip, consisting of the pre-roll window captured just before speech
onset, the whole speech run, and the trailing silence up to the finalize
threshold. -/
theorem c2_exactly_one_clip (cfg : SegConfig) (p r s : Nat)
    (hth : 0 < cfg.silenceFinalizeFrames)
    (hr : 0 < r)
    (hmin : cfg.minClipFrames ≤ r)
    (hs : cfg.silenceFinalizeFrames ≤ s)
    (hmax : min p cfg.prerollMaxChunks + r + cfg.silenceFinalizeFrames ≤
      cfg.maxClipFrames) :
    segment cfg (List.replicate p false ++ List.replicate r true ++
        List.replicate s false) =
      [List.replicate (min p cfg.prerollMaxChunks) false ++
        List.replicate r true ++
        List.replicate cfg.silenceFinalizeFrames false] := by
  obtain ⟨r2, rfl⟩ : ∃ r2, r = r2 + 1 := ⟨r - 1, by omega⟩
  unfold segment
  rw [List.append_assoc]
  rw [show initSegState = (⟨false, [], [], 0⟩ : SegState) from rfl]
  rw [runSeg_append cfg (List.replicate p false)
    (List.replicate (r2 + 1) true ++ List.replicate s false) ⟨false, [], [], 0⟩]
  rw [runSeg_idle cfg p []]
  dsimp only
  rw [idleRoll_nil cfg p]
  rw [List.nil_append]
  rw [List.replicate_succ, List.cons_append, runSeg_cons]
  have hstepOn : segStep cfg
      ⟨false, List.replicate (min p cfg.prerollMaxChunks) false, [], 0⟩ true
      = (⟨true, [],
          List.replicate (min p cfg.prerollMaxChunks) false ++ [true], 0⟩, []) := by
    show bufferAppend cfg (List.replicate (min p cfg.prerollMaxChunks) false) 0 true = _
    unfold bufferAppend
    have hcond : ¬(cfg.silenceFinalizeFrames ≤ nextTimer 0 true ∨
        cfg.maxClipFrames ≤
          (List.replicate (min p cfg.prerollMaxChunks) false ++ [true]).length) := by
      push_neg
      refine ⟨by rw [nextTimer_true]; omega, ?_⟩
      simp only [List.length_append, List.length_replicate, List.length_cons,
        List.length_nil]
      omega
    rw [if_neg hcond, nextTimer_true]
  rw [hstepOn]
  dsimp only
  rw [List.nil_append]
  rw [runSeg_append cfg (List.replicate r2 true) (List.replicate s false)
    ⟨true, [], List.replicate (min p cfg.prerollMaxChunks) false ++ [true], 0⟩]
  rw [runSeg_speech cfg r2
    (List.replicate (min p cfg.prerollMaxChunks) false ++ [true]) hth
    (by
      simp only [List.length_append, List.length_replicate, List.length_cons,
        List.length_nil]
      omega)]
  dsimp only
  rw [List.nil_append]
  rw [runSeg_silence cfg cfg.silenceFinalizeFrames s
    ((List.replicate (min p cfg.prerollMaxChunks) false ++ [true]) ++
      List.replicate r2 true) 0
    (by omega) hth hs
    (by
      simp only [List.length_append, List.length_replicate, List.length_cons,
        List.length_nil]
      omega)
    (by
      simp only [List.length_append, List.length_replicate, List.length_cons,
        List.length_nil]
      omega)]
  simp [List.replicate_succ, List.append_assoc]

/-- Witness for the amended C2: five leading silence frames, a 3-frame
speech run, four trailing silence frames with thresholds cfgC2w yield
exactly the clip made of the 3-chunk pre-roll window, the run, and two
trailing silence frames. -/
theorem c2_exactly_one_clip_witness :
    0 < cfgC2w.silenceFinalizeFrames ∧ 0 < 3 ∧ cfgC2w.minClipFrames ≤ 3 ∧
    cfgC2w.silenceFinalizeFrames ≤ 4 ∧
    min 5 cfgC2w.prerollMaxChunks + 3 + cfgC2w.silenceFinalizeFrames ≤
      cfgC2w.maxClipFrames ∧
    segment cfgC2w (List.replicate 5 false ++ List.replicate 3 true ++
        List.replicate 4 false) =
      [List.replicate (min 5 cfgC2w.prerollMaxChunks) false ++
        List.replicate 3 true ++
        List.replicate cfgC2w.silenceFinalizeFrames false] :=
  ⟨by decide, by decide, by decide, by decide, by decide,
   c2_exactly_one_clip cfgC2w 5 3 4 (by decide) (by decide) (by decide)
     (by decide) (by decide)⟩

end VoiceFlare
